import Mathlib

/-!
Verification of the markdown response renderer in
`src/server/events/markdown_renderer.go`.

The renderer is a pure function from a structured command result to a
markdown string.  The Go templates are embedded as Lean functions that
produce exactly the bytes the parsed `text/template` values emit on the
data each call site passes.  For these fixed templates and data shapes
template execution cannot fail, so each `execute*` function is total and
the call sites wrap the result in `Except.ok`; the fallible wrapper
`renderTemplate` keeps the error branch of the Go function
`renderTemplate` (the bug-notice string).

The Go `map[string]string` is embedded as an association list with
insert-or-replace assignment (`mapUpsert`); `text/template` iterates map
keys in ascending byte order, which for valid UTF-8 coincides with the
codepoint-lexicographic order on the character data, so iteration is
embedded as `List.insertionSort` by key.
-/

namespace Atlantis

/-- Modelled from the spec: `CommandName` is an open enumeration
{Plan, Apply, Help, …} with a lower-case string form; its Go definition is
not part of the sources under verification.  `Other` covers the further,
unnamed members that the open enumeration of the spec allows. -/
inductive CommandName where
  | Plan : CommandName
  | Apply : CommandName
  | Help : CommandName
  | Other : String → CommandName
deriving DecidableEq

/-- Modelled from the spec: `CommandName.String() -> string`, the
lower-case name of the command. -/
def CommandName.str : CommandName → String
  | .Plan => "plan"
  | .Apply => "apply"
  | .Help => "help"
  | .Other s => s

/-- Modelled from the spec: the optional plan-success payload with
`TerraformOutput` and `LockURL` fields. -/
structure PlanSuccess where
  TerraformOutput : String
  LockURL : String
deriving DecidableEq

/-- Modelled from the spec: the outcome of one project.  A Go `error` value is
embedded as its message string (the renderer only ever calls `.Error()`);
`nil` is `none`. -/
structure ProjectResult where
  Path : String
  Error : Option String
  Failure : String
  PlanSuccess : Option PlanSuccess
  ApplySuccess : String
deriving DecidableEq

/-- Modelled from the spec: the top-level command result. -/
structure CommandResponse where
  Error : Option String
  Failure : String
  ProjectResults : List ProjectResult
deriving DecidableEq

/-- Structure `CommonData` from the source: data that all responses have. -/
structure CommonData where
  Command : String
  Verbose : Bool
  Log : String
deriving DecidableEq

/-- Structure `ErrData` from the source (the Go struct embeds `CommonData`). -/
structure ErrData where
  Error : String
  common : CommonData
deriving DecidableEq

/-- Structure `FailureData` from the source. -/
structure FailureData where
  Failure : String
  common : CommonData
deriving DecidableEq

/-- Structure `ResultData` from the source; the Go `map[string]string` is embedded
as an association list built by `mapUpsert`. -/
structure ResultData where
  Results : List (String × String)
  common : CommonData

/-- Embeds the closure passed to `strings.Map` inside Go `strings.Title`:
`isSeparator` from the Go standard library, restricted to the ASCII
fragment that the command names of the spec live in (runes above 0x7F are treated
as non-separators, which agrees with Go on letters and digits). -/
def isSeparator (r : Char) : Bool :=
  if r.toNat ≤ 0x7F then
    if '0' ≤ r ∧ r ≤ '9' then false
    else if 'a' ≤ r ∧ r ≤ 'z' then false
    else if 'A' ≤ r ∧ r ≤ 'Z' then false
    else if r = '_' then false
    else true
  else false

/-- Character mapping of Go `strings.Title`: each character following a
separator (the scan starts with separator state, Go initializes `prev` to
a space) is title-cased; on ASCII `unicode.ToTitle` coincides with
`Char.toUpper`. -/
def goTitleAux (prev : Char) : List Char → List Char
  | [] => []
  | c :: cs => (if isSeparator prev then c.toUpper else c) :: goTitleAux c cs

/-- Embeds `strings.Title` from the Go standard library, as called on
`cmdName.String()` in `Render` (ASCII fragment). -/
def goTitle (s : String) : String :=
  ⟨goTitleAux ' ' s.data⟩

/-- The shared trailing fragment `logTmpl`, conditional on the verbose
flag. -/
def logFragment (verbose : Bool) (log : String) : String :=
  if verbose then
    "\n<details><summary>Log</summary>\n  <p>\n\n```\n" ++ log ++ "```\n</p></details>\n"
  else "\n"

/-- Output of `helpTmpl` (no substitutions). -/
def executeHelpTmpl : String :=
  "```cmake\natlantis - Terraform collaboration tool that enables you to collaborate on infrastructure\nsafely and securely.\n\nUsage: atlantis <command> [workspace] [--verbose]\n\nCommands:\nplan           Runs \x27terraform plan\x27 on the files changed in the pull request\napply          Runs \x27terraform apply\x27 using the plans generated by \x27atlantis plan\x27\nhelp           Get help\n\nExamples:\n\n# Generates a plan for staging workspace\natlantis plan staging\n\n# Generates a plan for a standalone terraform project\natlantis plan\n\n# Applies a plan for staging workspace\natlantis apply staging\n\n# Applies a plan for a standalone terraform project\natlantis apply\n"

/-- Output of `errTmpl` (text `errTmplText`) on its anonymous
`{Command, Error}` data. -/
def executeErrTmpl (command error : String) : String :=
  "**" ++ command ++ " Error**\n```\n" ++ error ++ "\n```\n"

/-- Output of `errWithLogTmpl` (`errTmplText + logTmpl`) on `ErrData`. -/
def executeErrWithLogTmpl (d : ErrData) : String :=
  executeErrTmpl d.common.Command d.Error ++ logFragment d.common.Verbose d.common.Log

/-- Output of `failureTmpl` (text `failureTmplText`). -/
def executeFailureTmpl (command failure : String) : String :=
  "**" ++ command ++ " Failed**: " ++ failure ++ "\n"

/-- Output of `failureWithLogTmpl` (`failureTmplText + logTmpl`). -/
def executeFailureWithLogTmpl (d : FailureData) : String :=
  executeFailureTmpl d.common.Command d.Failure ++ logFragment d.common.Verbose d.common.Log

/-- Output of `planSuccessTmpl`. -/
def executePlanSuccessTmpl (p : PlanSuccess) : String :=
  "```diff\n" ++ p.TerraformOutput ++ "\n```\n\n* To **discard** this plan click [here](" ++ p.LockURL ++ ")."

/-- Output of `applySuccessTmpl` on its anonymous `{Output}` data. -/
def executeApplySuccessTmpl (output : String) : String :=
  "```diff\n" ++ output ++ "\n```"

/-- Go map assignment `m[k] = v`: replace the value when the key is
present, otherwise add the binding. -/
def mapUpsert (m : List (String × String)) (k v : String) : List (String × String) :=
  if m.any (fun p => p.1 == k) then
    m.map (fun p => if p.1 == k then (k, v) else p)
  else m ++ [(k, v)]

/-- Lexicographic comparison of character lists by codepoint.  For valid
UTF-8 this coincides with the Go byte-wise string comparison, the order in
which `text/template` ranges over map keys. -/
def lexLe : List Char → List Char → Bool
  | [], _ => true
  | _ :: _, [] => false
  | a :: as, b :: bs => if a < b then true else if b < a then false else lexLe as bs

/-- Key order used by `text/template` when ranging over a
`map[string]string`: ascending byte order of the keys. -/
def keyLe (p q : String × String) : Prop := lexLe p.1.data q.1.data = true

instance : DecidableRel keyLe := fun p q =>
  inferInstanceAs (Decidable (lexLe p.1.data q.1.data = true))

theorem lexLe_total (a b : List Char) : lexLe a b = true ∨ lexLe b a = true := by
  induction a generalizing b with
  | nil => exact Or.inl rfl
  | cons x xs ih =>
    cases b with
    | nil => exact Or.inr rfl
    | cons y ys =>
      by_cases hxy : x < y
      · exact Or.inl (by simp [lexLe, hxy])
      · by_cases hyx : y < x
        · exact Or.inr (by simp [lexLe, hyx])
        · rcases ih ys with h | h
          · exact Or.inl (by simp [lexLe, hxy, hyx, h])
          · exact Or.inr (by simp [lexLe, hxy, hyx, h])

theorem lexLe_trans {a b c : List Char} (hab : lexLe a b = true)
    (hbc : lexLe b c = true) : lexLe a c = true := by
  induction a generalizing b c with
  | nil => rfl
  | cons x xs ih =>
    cases b with
    | nil => simp [lexLe] at hab
    | cons y ys =>
      cases c with
      | nil => simp [lexLe] at hbc
      | cons z zs =>
        simp only [lexLe] at hab hbc ⊢
        by_cases hxy : x < y
        · have hyz : y ≤ z := by
            by_contra hzy
            simp [lt_of_not_le hzy, lt_asymm (lt_of_not_le hzy)] at hbc
          have hxz : x < z := lt_of_lt_of_le hxy hyz
          simp [hxz]
        · by_cases hyx : y < x
          · simp [hxy, hyx] at hab
          · have hxy' : x = y := le_antisymm (le_of_not_lt hyx) (le_of_not_lt hxy)
            subst hxy'
            simp only [hxy, if_neg hyx, if_neg hxy, if_false, if_true] at hab
            by_cases hyz : x < z
            · simp [hyz]
            · by_cases hzy : z < x
              · simp [hyz, hzy] at hbc
              · simp only [if_neg hyz, if_neg hzy, if_false, if_true] at hbc ⊢
                exact ih hab hbc

theorem lexLe_antisymm {a b : List Char} (hab : lexLe a b = true)
    (hba : lexLe b a = true) : a = b := by
  induction a generalizing b with
  | nil =>
    cases b with
    | nil => rfl
    | cons y ys => simp [lexLe] at hba
  | cons x xs ih =>
    cases b with
    | nil => simp [lexLe] at hab
    | cons y ys =>
      simp only [lexLe] at hab hba
      by_cases hxy : x < y
      · simp [lt_asymm hxy, hxy] at hba
      · by_cases hyx : y < x
        · simp [hxy, hyx] at hab
        · have hxy' : x = y := le_antisymm (le_of_not_lt hyx) (le_of_not_lt hxy)
          subst hxy'
          simp only [if_neg hxy, if_neg hyx, if_false] at hab hba
          exact congrArg (x :: ·) (ih hab hba)

instance : IsTotal (String × String) keyLe := ⟨fun p q => lexLe_total p.1.data q.1.data⟩

instance : IsTrans (String × String) keyLe := ⟨fun _ _ _ h h' => lexLe_trans h h'⟩

/-- The map iteration order of `text/template`: entries sorted by key. -/
def sortPairs (m : List (String × String)) : List (String × String) :=
  List.insertionSort keyLe m

/-- Sequential concatenation, as the template writes pieces to the
buffer. -/
def concatStrings : List String → String
  | [] => ""
  | s :: rest => s ++ concatStrings rest

/-- Output of `singleProjectTmpl`: the values of the `Results` map (in
map-iteration order), a newline, then the log fragment. -/
def executeSingleProjectTmpl (d : ResultData) : String :=
  concatStrings ((sortPairs d.Results).map Prod.snd) ++ "\n"
    ++ logFragment d.common.Verbose d.common.Log

/-- Output of `multiProjectTmpl`: header with command and map size, one
bullet per path, a blank line, one `## path/` section per entry (both
loops in map-iteration order), then the log fragment. -/
def executeMultiProjectTmpl (d : ResultData) : String :=
  "Ran " ++ d.common.Command ++ " in " ++ Nat.repr d.Results.length ++ " directories:\n"
    ++ concatStrings ((sortPairs d.Results).map (fun p => " * `" ++ p.1 ++ "`\n"))
    ++ "\n"
    ++ concatStrings ((sortPairs d.Results).map (fun p => "## " ++ p.1 ++ "/\n" ++ p.2 ++ "\n---\n"))
    ++ logFragment d.common.Verbose d.common.Log

/-- Function `renderTemplate` from the source: on successful execution the
rendered text, on an execution error the literal bug-notice string with
the error message. -/
def renderTemplate (r : Except String String) : String :=
  match r with
  | .ok s => s
  | .error err => "Failed to render template, this is a bug: " ++ err

/-- The per-project dispatch inside `renderProjectResults`: first
populated field of Error, Failure, PlanSuccess, ApplySuccess wins; when
none is populated the literal bug sentinel is stored. -/
def renderOne (common : CommonData) (result : ProjectResult) : String :=
  match result.Error with
  | some err => renderTemplate (.ok (executeErrTmpl common.Command err))
  | none =>
    if result.Failure ≠ "" then
      renderTemplate (.ok (executeFailureTmpl common.Command result.Failure))
    else
      match result.PlanSuccess with
      | some ps => renderTemplate (.ok (executePlanSuccessTmpl ps))
      | none =>
        if result.ApplySuccess ≠ "" then
          renderTemplate (.ok (executeApplySuccessTmpl result.ApplySuccess))
        else "Found no template. This is a bug!"

/-- The `results` map built by the loop in `renderProjectResults`. -/
def buildResults (common : CommonData) (pathResults : List ProjectResult) :
    List (String × String) :=
  pathResults.foldl (fun m result => mapUpsert m result.Path (renderOne common result)) []

/-- Function `renderProjectResults` from the source: build the path→string map,
then render it with the single- or multi-project outer template according
to the map size. -/
def renderProjectResults (pathResults : List ProjectResult) (common : CommonData) : String :=
  let results := buildResults common pathResults
  if results.length = 1 then
    renderTemplate (.ok (executeSingleProjectTmpl ⟨results, common⟩))
  else
    renderTemplate (.ok (executeMultiProjectTmpl ⟨results, common⟩))

/-- Function `Render` from the source. -/
def Render (res : CommandResponse) (cmdName : CommandName) (log : String)
    (verbose : Bool) : String :=
  if cmdName = .Help then renderTemplate (.ok executeHelpTmpl)
  else
    let commandStr := goTitle cmdName.str
    let common : CommonData := ⟨commandStr, verbose, log⟩
    match res.Error with
    | some err => renderTemplate (.ok (executeErrWithLogTmpl ⟨err, common⟩))
    | none =>
      if res.Failure ≠ "" then
        renderTemplate (.ok (executeFailureWithLogTmpl ⟨res.Failure, common⟩))
      else renderProjectResults res.ProjectResults common

/-- Stated from the words of the spec, for comparison with the source
function `goTitle`: "TitleCase contract: first character uppercased, remainder
unchanged." -/
def specTitleCase (s : String) : String :=
  match s.data with
  | [] => ""
  | c :: cs => ⟨c.toUpper :: cs⟩

theorem ne_empty_of_data_ne_nil {s : String} (h : s.data ≠ []) : s ≠ "" :=
  fun he => h (by rw [he])

theorem append_data_ne_right {s t : String} (h : t.data ≠ []) : (s ++ t).data ≠ [] := by
  rw [String.data_append]
  exact fun hh => h (List.append_eq_nil.mp hh).2

theorem logFragment_data_ne_nil (verbose : Bool) (log : String) :
    (logFragment verbose log).data ≠ [] := by
  cases verbose with
  | false => simp [logFragment]
  | true =>
    show ((("\n<details><summary>Log</summary>\n  <p>\n\n```\n" : String) ++ log)
      ++ "```\n</p></details>\n").data ≠ []
    exact append_data_ne_right (by decide)

/-- Scenario 5 of the spec (multi-project mixed result), checked by
evaluation: the two projects appear in ascending path order with the
expected section bytes. -/
theorem scenario_multi_project_mixed :
    Render ⟨none, "", [⟨"b", none, "locked", none, ""⟩, ⟨"a", none, "", none, "done"⟩]⟩
      .Apply "" false
    = "Ran Apply in 2 directories:\n * `a`\n * `b`\n\n## a/\n```diff\ndone\n```\n---\n## b/\n**Apply Failed**: locked\n\n---\n\n" := by
  decide

/-- C1: `Render` is a total function: for every `CommandResponse`,
`CommandName`, log string and verbose flag it returns a non-empty string
and never fails (it is a Lean function into `String`); when execution of
a template fails, `renderTemplate` returns the literal notice string
"Failed to render template, this is a bug: " followed by the failure
message instead of propagating the error. -/
theorem C1_render_total :
    (∀ (res : CommandResponse) (cmd : CommandName) (log : String) (verbose : Bool),
      Render res cmd log verbose ≠ "")
    ∧ ∀ (msg : String),
        renderTemplate (.error msg) = "Failed to render template, this is a bug: " ++ msg := by
  refine ⟨fun res cmd log verbose => ?_, fun msg => rfl⟩
  by_cases hc : cmd = .Help
  · simp only [Render, if_pos hc, renderTemplate]
    decide
  · obtain ⟨err?, failure, prs⟩ := res
    cases err? with
    | some e =>
      simp only [Render, if_neg hc, renderTemplate, executeErrWithLogTmpl]
      exact ne_empty_of_data_ne_nil (append_data_ne_right (logFragment_data_ne_nil _ _))
    | none =>
      by_cases hf : failure ≠ ""
      · simp only [Render, if_neg hc, renderTemplate, executeFailureWithLogTmpl, if_pos hf]
        exact ne_empty_of_data_ne_nil (append_data_ne_right (logFragment_data_ne_nil _ _))
      · simp only [Render, if_neg hc, renderTemplate, if_neg hf, renderProjectResults]
        split
        · simp only [renderTemplate, executeSingleProjectTmpl]
          exact ne_empty_of_data_ne_nil (append_data_ne_right (logFragment_data_ne_nil _ _))
        · simp only [renderTemplate, executeMultiProjectTmpl]
          exact ne_empty_of_data_ne_nil (append_data_ne_right (logFragment_data_ne_nil _ _))

/-- C2: Help precedence: for every `CommandResponse`, log string and
verbose flag, `Render res Help log verbose` equals the rendered help
template (the fixed fenced `cmake` usage block), regardless of
`res.Error`, `res.Failure`, `res.ProjectResults`, `log` and `verbose`. -/
theorem C2_help_precedence (res : CommandResponse) (log : String) (verbose : Bool) :
    Render res .Help log verbose
      = "```cmake\natlantis - Terraform collaboration tool that enables you to collaborate on infrastructure\nsafely and securely.\n\nUsage: atlantis <command> [workspace] [--verbose]\n\nCommands:\nplan           Runs \x27terraform plan\x27 on the files changed in the pull request\napply          Runs \x27terraform apply\x27 using the plans generated by \x27atlantis plan\x27\nhelp           Get help\n\nExamples:\n\n# Generates a plan for staging workspace\natlantis plan staging\n\n# Generates a plan for a standalone terraform project\natlantis plan\n\n# Applies a plan for staging workspace\natlantis apply staging\n\n# Applies a plan for a standalone terraform project\natlantis apply\n" :=
  rfl

/-- C3: dispatch precedence for non-Help commands: a non-nil `Error`
yields the `errWithLogTmpl` rendering of the error message and makes
`Failure` and `ProjectResults` irrelevant; otherwise a non-empty
`Failure` yields the `failureWithLogTmpl` rendering and makes
`ProjectResults` irrelevant; only otherwise are the project results
rendered. -/
theorem C3_dispatch_precedence (cmd : CommandName) (hcmd : cmd ≠ .Help)
    (log : String) (verbose : Bool) (e failure failure' : String)
    (prs prs' : List ProjectResult) :
    (Render ⟨some e, failure, prs⟩ cmd log verbose
        = renderTemplate (.ok (executeErrWithLogTmpl ⟨e, ⟨goTitle cmd.str, verbose, log⟩⟩))
      ∧ Render ⟨some e, failure, prs⟩ cmd log verbose
        = Render ⟨some e, failure', prs'⟩ cmd log verbose)
    ∧ (failure ≠ "" →
        Render ⟨none, failure, prs⟩ cmd log verbose
          = renderTemplate
              (.ok (executeFailureWithLogTmpl ⟨failure, ⟨goTitle cmd.str, verbose, log⟩⟩))
        ∧ Render ⟨none, failure, prs⟩ cmd log verbose
          = Render ⟨none, failure, prs'⟩ cmd log verbose)
    ∧ Render ⟨none, "", prs⟩ cmd log verbose
        = renderProjectResults prs ⟨goTitle cmd.str, verbose, log⟩ := by
  refine ⟨⟨?_, ?_⟩, fun hf => ⟨?_, ?_⟩, ?_⟩
  · simp [Render, if_neg hcmd]
  · simp [Render, if_neg hcmd]
  · simp [Render, if_neg hcmd, hf]
  · simp [Render, if_neg hcmd, hf]
  · simp [Render, if_neg hcmd]

theorem C3_witness :
    (Render ⟨some "boom", "nope", [⟨"p", none, "", none, "x"⟩]⟩ .Plan "L" true
        = renderTemplate (.ok (executeErrWithLogTmpl ⟨"boom", ⟨goTitle CommandName.Plan.str, true, "L"⟩⟩))
      ∧ Render ⟨some "boom", "nope", [⟨"p", none, "", none, "x"⟩]⟩ .Plan "L" true
        = Render ⟨some "boom", "", []⟩ .Plan "L" true)
    ∧ (Render ⟨none, "nope", [⟨"p", none, "", none, "x"⟩]⟩ .Plan "L" true
        = renderTemplate
            (.ok (executeFailureWithLogTmpl ⟨"nope", ⟨goTitle CommandName.Plan.str, true, "L"⟩⟩))
      ∧ Render ⟨none, "nope", [⟨"p", none, "", none, "x"⟩]⟩ .Plan "L" true
        = Render ⟨none, "nope", []⟩ .Plan "L" true)
    ∧ Render ⟨none, "", [⟨"p", none, "", none, "x"⟩]⟩ .Plan "L" true
        = renderProjectResults [⟨"p", none, "", none, "x"⟩] ⟨goTitle CommandName.Plan.str, true, "L"⟩ := by
  have h := C3_dispatch_precedence .Plan (by decide) "L" true "boom" "nope" ""
    [⟨"p", none, "", none, "x"⟩] []
  exact ⟨h.1, (C3_dispatch_precedence .Plan (by decide) "L" true "boom" "nope" ""
    [⟨"p", none, "", none, "x"⟩] []).2.1 (by decide), h.2.2⟩

/-- C4: global-error exact bytes: rendering a response whose `Error`
message is "boom" with command `Plan`, log "L" and verbose `false`
returns exactly `**Plan Error**\n```\nboom\n```\n\n`, the final newline
coming from the non-verbose branch of the log fragment. -/
theorem C4_global_error_exact_bytes :
    Render ⟨some "boom", "", []⟩ .Plan "L" false = "**Plan Error**\n```\nboom\n```\n\n" := by
  decide

/-- C5: single-project plan-success exact bytes. -/
theorem C5_single_plan_success_exact_bytes :
    Render ⟨none, "", [⟨"./", none, "", some ⟨"+1", "u"⟩, ""⟩]⟩ .Plan "" false
      = "```diff\n+1\n```\n\n* To **discard** this plan click [here](u).\n\n" := by
  decide

/-- C9: per-project variant selection and bug sentinel: each
`ProjectResult` is rendered by checking, in order, `Error`, then
`Failure`, then `PlanSuccess`, then `ApplySuccess`, using the first
template of the first populated field; when all four are empty, the literal string
"Found no template. This is a bug!" is stored for that path instead of
failing. -/
theorem C9_project_variant_selection (common : CommonData) (path e failure applyOut : String)
    (ps : PlanSuccess) (ps? : Option PlanSuccess) :
    renderOne common ⟨path, some e, failure, ps?, applyOut⟩ = executeErrTmpl common.Command e
    ∧ (failure ≠ "" →
        renderOne common ⟨path, none, failure, ps?, applyOut⟩
          = executeFailureTmpl common.Command failure)
    ∧ renderOne common ⟨path, none, "", some ps, applyOut⟩ = executePlanSuccessTmpl ps
    ∧ (applyOut ≠ "" →
        renderOne common ⟨path, none, "", none, applyOut⟩ = executeApplySuccessTmpl applyOut)
    ∧ renderOne common ⟨path, none, "", none, ""⟩ = "Found no template. This is a bug!"
    ∧ buildResults common [⟨path, none, "", none, ""⟩]
        = [(path, "Found no template. This is a bug!")] := by
  refine ⟨rfl, fun hf => ?_, rfl, fun ha => ?_, rfl, rfl⟩
  · simp [renderOne, renderTemplate, hf]
  · simp [renderOne, renderTemplate, ha]

theorem C9_witness :
    renderOne ⟨"Plan", false, ""⟩ ⟨"p", some "e", "f", some ⟨"+1", "u"⟩, "a"⟩
        = executeErrTmpl "Plan" "e"
    ∧ renderOne ⟨"Plan", false, ""⟩ ⟨"p", none, "f", some ⟨"+1", "u"⟩, "a"⟩
        = executeFailureTmpl "Plan" "f"
    ∧ renderOne ⟨"Plan", false, ""⟩ ⟨"p", none, "", some ⟨"+1", "u"⟩, "a"⟩
        = executePlanSuccessTmpl ⟨"+1", "u"⟩
    ∧ renderOne ⟨"Plan", false, ""⟩ ⟨"p", none, "", none, "a"⟩ = executeApplySuccessTmpl "a"
    ∧ renderOne ⟨"Plan", false, ""⟩ ⟨"p", none, "", none, ""⟩
        = "Found no template. This is a bug!" := by
  have h := C9_project_variant_selection ⟨"Plan", false, ""⟩ "p" "e" "f" "a" ⟨"+1", "u"⟩
    (some ⟨"+1", "u"⟩)
  exact ⟨h.1, h.2.1 (by decide), h.2.2.1, h.2.2.2.1 (by decide), h.2.2.2.2.1⟩

theorem goTitleAux_eq_self {prev : Char} {l : List Char} (hprev : isSeparator prev = false)
    (hl : ∀ c ∈ l, isSeparator c = false) : goTitleAux prev l = l := by
  induction l generalizing prev with
  | nil => rfl
  | cons c cs ih =>
    simp only [goTitleAux, hprev, if_false]
    exact congrArg (c :: ·) (ih (hl c (by simp)) fun d hd => hl d (by simp [hd]))

theorem goTitle_eq_specTitleCase {s : String}
    (hs : ∀ c ∈ s.data, isSeparator c = false) : goTitle s = specTitleCase s := by
  obtain ⟨l⟩ := s
  cases l with
  | nil => rfl
  | cons c cs =>
    show (⟨goTitleAux ' ' (c :: cs)⟩ : String) = ⟨c.toUpper :: cs⟩
    simp only [goTitleAux, show isSeparator ' ' = true by decide, if_true]
    exact congrArg (fun l => String.mk (c.toUpper :: l))
      (goTitleAux_eq_self (hs c (by simp)) fun d hd => hs d (by simp [hd]))

/-- C8 counterexample: `strings.Title` (embedded as `goTitle`) uppercases
the first letter of every separator-delimited word, not only the first
character of the string: on the lower-case string form "force plan" the
Command token embedded in the output is "Force Plan", not the
"Force plan" that the first-character-only contract of the claim demands. -/
theorem C8_counterexample :
    goTitle (CommandName.Other "force plan").str
      ≠ specTitleCase (CommandName.Other "force plan").str
    ∧ Render ⟨some "x", "", []⟩ (.Other "force plan") "" false
      = "**Force Plan Error**\n```\nx\n```\n\n" := by
  exact ⟨by decide, by decide⟩

/-- C8 (amended): for every non-Help command whose string form contains
no separator character (in particular every single word of ASCII letters,
digits and underscores, such as "plan" and "apply"), the Command token
embedded in the output is the string form with its first character
uppercased and the remainder unchanged. -/
theorem C8_title_casing_amended (cmd : CommandName) (hcmd : cmd ≠ .Help)
    (hsep : ∀ c ∈ cmd.str.data, isSeparator c = false)
    (e log : String) (verbose : Bool) :
    goTitle cmd.str = specTitleCase cmd.str
    ∧ Render ⟨some e, "", []⟩ cmd log verbose
      = renderTemplate
          (.ok (executeErrWithLogTmpl ⟨e, ⟨specTitleCase cmd.str, verbose, log⟩⟩)) := by
  refine ⟨goTitle_eq_specTitleCase hsep, ?_⟩
  simp [Render, if_neg hcmd, goTitle_eq_specTitleCase hsep]

theorem C8_witness :
    goTitle CommandName.Plan.str = specTitleCase CommandName.Plan.str
    ∧ Render ⟨some "x", "", []⟩ .Plan "L" false
      = renderTemplate
          (.ok (executeErrWithLogTmpl ⟨"x", ⟨specTitleCase CommandName.Plan.str, false, "L"⟩⟩)) :=
  C8_title_casing_amended .Plan (by decide) (by decide) "x" "L" false

/-- Number of occurrences of the (non-empty) pattern `p` in a character
list: the number of positions at which `p` matches. -/
def countOcc (p : List Char) : List Char → Nat
  | [] => 0
  | c :: s => (if List.isPrefixOf p (c :: s) then 1 else 0) + countOcc p s

theorem mapUpsert_mem {m : List (String × String)} {k v : String} :
    ∀ q ∈ mapUpsert m k v, q ∈ m ∨ q = (k, v) := by
  intro q hq
  unfold mapUpsert at hq
  split at hq
  · obtain ⟨p, hp, hpe⟩ := List.mem_map.mp hq
    by_cases h : (p.1 == k) = true
    · right
      rw [← hpe]
      simp [h]
    · left
      rw [← hpe]
      simpa [h] using hp
  · rcases List.mem_append.mp hq with h | h
    · exact Or.inl h
    · exact Or.inr (by simpa using h)

theorem buildResults_mem {common : CommonData} {prs : List ProjectResult} :
    ∀ q ∈ buildResults common prs, ∃ r, r ∈ prs ∧ q = (r.Path, renderOne common r) := by
  suffices h : ∀ (prs : List ProjectResult) (m : List (String × String)),
      ∀ q ∈ prs.foldl (fun m result => mapUpsert m result.Path (renderOne common result)) m,
        q ∈ m ∨ ∃ r, r ∈ prs ∧ q = (r.Path, renderOne common r) by
    intro q hq
    rcases h prs [] q hq with hmem | hr
    · exact absurd hmem (List.not_mem_nil q)
    · exact hr
  intro prs
  induction prs with
  | nil => exact fun m q hq => Or.inl hq
  | cons r rest ih =>
    intro m q hq
    rcases ih (mapUpsert m r.Path (renderOne common r)) q hq with hmem | ⟨r', hr', he⟩
    · rcases mapUpsert_mem q hmem with hmem' | he
      · exact Or.inl hmem'
      · exact Or.inr ⟨r, by simp, he⟩
    · exact Or.inr ⟨r', by simp [hr'], he⟩

theorem renderOne_head (common : CommonData) (r : ProjectResult) :
    ∃ c cs, (renderOne common r).data = c :: cs ∧ (c = '*' ∨ c = '`' ∨ c = 'F') := by
  obtain ⟨path, err?, failure, ps?, applyOut⟩ := r
  cases err? with
  | some e =>
    exact ⟨'*', ("*" ++ common.Command ++ " Error**\n```\n" ++ e ++ "\n```\n").data,
      rfl, Or.inl rfl⟩
  | none =>
    by_cases hf : failure ≠ ""
    · refine ⟨'*', ("*" ++ common.Command ++ " Failed**: " ++ failure ++ "\n").data, ?_, Or.inl rfl⟩
      simp only [renderOne, if_pos hf]
      rfl
    · cases ps? with
      | some ps =>
        refine ⟨'`',
          ("``diff\n" ++ ps.TerraformOutput ++ "\n```\n\n* To **discard** this plan click [here]("
            ++ ps.LockURL ++ ").").data, ?_, Or.inr (Or.inl rfl)⟩
        simp only [renderOne, if_neg hf]
        rfl
      | none =>
        by_cases ha : applyOut ≠ ""
        · refine ⟨'`', ("``diff\n" ++ applyOut ++ "\n```").data, ?_, Or.inr (Or.inl rfl)⟩
          simp only [renderOne, if_neg hf, if_pos ha]
          rfl
        · refine ⟨'F', ("ound no template. This is a bug!").data, ?_, Or.inr (Or.inr rfl)⟩
          simp only [renderOne, if_neg hf, if_neg ha]

theorem not_prefix_of_head_ne {x c : Char} (h : c ≠ x) (p cs : List Char) :
    List.isPrefixOf (x :: p) (c :: cs) = false := by
  simp only [List.isPrefixOf]
  simp [beq_eq_false_iff_ne, Ne.symm h]

/-- C7 counterexample: with two `ProjectResults` sharing the path "a",
the `results` map has a single entry, so the single-project template is
chosen and no "Ran … directories:" header appears, although
`len(ProjectResults) = 2 ≠ 1`. -/
theorem C7_counterexample :
    ([(⟨"a", none, "", none, "x"⟩ : ProjectResult), ⟨"a", none, "", none, "y"⟩].length ≠ 1)
    ∧ Render ⟨none, "", [⟨"a", none, "", none, "x"⟩, ⟨"a", none, "", none, "y"⟩]⟩
        .Plan "" false
      = "```diff\ny\n```\n\n"
    ∧ countOcc ("Ran ").data
        (Render ⟨none, "", [⟨"a", none, "", none, "x"⟩, ⟨"a", none, "", none, "y"⟩]⟩
          .Plan "" false).data = 0 := by
  refine ⟨by decide, by decide, by decide⟩

/-- C7 (amended): for every results-branch invocation, the output begins
with the header `Ran {Cmd} in {N} directories:` — `N` being the number of
entries of the path→result map, i.e. the number of distinct project
paths — if and only if that number is not 1; in particular an empty
`ProjectResults` sequence is rendered with the multi-project template
with count 0. -/
theorem C7_framing_amended (cmd : CommandName) (hcmd : cmd ≠ .Help) (log : String)
    (verbose : Bool) (prs : List ProjectResult) :
    ((buildResults ⟨goTitle cmd.str, verbose, log⟩ prs).length ≠ 1 →
      List.isPrefixOf
        ("Ran " ++ goTitle cmd.str ++ " in "
          ++ Nat.repr (buildResults ⟨goTitle cmd.str, verbose, log⟩ prs).length
          ++ " directories:\n").data
        (Render ⟨none, "", prs⟩ cmd log verbose).data = true)
    ∧ ((buildResults ⟨goTitle cmd.str, verbose, log⟩ prs).length = 1 →
      List.isPrefixOf ("Ran ").data (Render ⟨none, "", prs⟩ cmd log verbose).data = false) := by
  have hren : Render ⟨none, "", prs⟩ cmd log verbose
      = renderProjectResults prs ⟨goTitle cmd.str, verbose, log⟩ := by
    simp [Render, if_neg hcmd]
  constructor
  · intro hlen
    have hmulti : renderProjectResults prs ⟨goTitle cmd.str, verbose, log⟩
        = executeMultiProjectTmpl
            ⟨buildResults ⟨goTitle cmd.str, verbose, log⟩ prs,
              ⟨goTitle cmd.str, verbose, log⟩⟩ := by
      simp [renderProjectResults, renderTemplate, hlen]
    rw [hren, hmulti, List.isPrefixOf_iff_prefix]
    have hdata : (executeMultiProjectTmpl
        ⟨buildResults ⟨goTitle cmd.str, verbose, log⟩ prs,
          ⟨goTitle cmd.str, verbose, log⟩⟩).data
        = ("Ran " ++ goTitle cmd.str ++ " in "
            ++ Nat.repr (buildResults ⟨goTitle cmd.str, verbose, log⟩ prs).length
            ++ " directories:\n").data
          ++ ((concatStrings
                ((sortPairs (buildResults ⟨goTitle cmd.str, verbose, log⟩ prs)).map
                  (fun p => " * `" ++ p.1 ++ "`\n"))).data
            ++ (("\n" : String).data
              ++ ((concatStrings
                    ((sortPairs (buildResults ⟨goTitle cmd.str, verbose, log⟩ prs)).map
                      (fun p => "## " ++ p.1 ++ "/\n" ++ p.2 ++ "\n---\n"))).data
                ++ (logFragment verbose log).data))) := by
      simp [executeMultiProjectTmpl, String.data_append, List.append_assoc]
    rw [hdata]
    exact List.prefix_append _ _
  · intro hlen
    obtain ⟨p, hp⟩ := List.length_eq_one.mp hlen
    have hsingle : renderProjectResults prs ⟨goTitle cmd.str, verbose, log⟩
        = executeSingleProjectTmpl ⟨[p], ⟨goTitle cmd.str, verbose, log⟩⟩ := by
      simp [renderProjectResults, renderTemplate, hlen, hp]
    have hpmem : p ∈ buildResults ⟨goTitle cmd.str, verbose, log⟩ prs := by
      simp [hp]
    obtain ⟨r, _, hpr⟩ := buildResults_mem p hpmem
    obtain ⟨c, cs, hcs, hc⟩ := renderOne_head ⟨goTitle cmd.str, verbose, log⟩ r
    have hp2 : p.2.data = c :: cs := by rw [hpr]; exact hcs
    have hdata : (executeSingleProjectTmpl ⟨[p], ⟨goTitle cmd.str, verbose, log⟩⟩).data
        = c :: (cs ++ ((("" : String).data
            ++ (("\n" : String).data ++ (logFragment verbose log).data)))) := by
      simp only [executeSingleProjectTmpl, sortPairs, List.insertionSort, List.orderedInsert,
        List.map, concatStrings, String.data_append, List.append_assoc]
      rw [hp2]
      simp
    rw [hren, hsingle, hdata]
    refine not_prefix_of_head_ne ?_ _ _
    rcases hc with h | h | h <;> simp [h]

theorem C7_witness :
    ((buildResults ⟨goTitle CommandName.Apply.str, false, ""⟩
        [⟨"b", none, "locked", none, ""⟩, ⟨"a", none, "", none, "done"⟩]).length ≠ 1)
    ∧ List.isPrefixOf
        ("Ran " ++ goTitle CommandName.Apply.str ++ " in "
          ++ Nat.repr (buildResults ⟨goTitle CommandName.Apply.str, false, ""⟩
              [⟨"b", none, "locked", none, ""⟩, ⟨"a", none, "", none, "done"⟩]).length
          ++ " directories:\n").data
        (Render ⟨none, "", [⟨"b", none, "locked", none, ""⟩, ⟨"a", none, "", none, "done"⟩]⟩
          .Apply "" false).data = true
    ∧ List.isPrefixOf ("Ran ").data
        (Render ⟨none, "", [⟨"./", none, "", some ⟨"+1", "u"⟩, ""⟩]⟩ .Plan "" false).data
        = false :=
  ⟨by decide,
    (C7_framing_amended .Apply (by decide) "" false
      [⟨"b", none, "locked", none, ""⟩, ⟨"a", none, "", none, "done"⟩]).1 (by decide),
    (C7_framing_amended .Plan (by decide) "" false
      [⟨"./", none, "", some ⟨"+1", "u"⟩, ""⟩]).2 (by decide)⟩

theorem buildResults_eq_map {common : CommonData} {prs : List ProjectResult}
    (h : (prs.map ProjectResult.Path).Nodup) :
    buildResults common prs = prs.map (fun r => (r.Path, renderOne common r)) := by
  suffices haux : ∀ (prs : List ProjectResult) (m : List (String × String)),
      (prs.map ProjectResult.Path).Nodup →
      (∀ r ∈ prs, ∀ q ∈ m, q.1 ≠ r.Path) →
      prs.foldl (fun m result => mapUpsert m result.Path (renderOne common result)) m
        = m ++ prs.map (fun r => (r.Path, renderOne common r)) by
    simpa [buildResults] using haux prs [] h (by simp)
  intro prs
  induction prs with
  | nil =>
    intro m _ _
    simp
  | cons r rest ih =>
    intro m hnd hfresh
    have hnotmem : r.Path ∉ rest.map ProjectResult.Path :=
      (List.nodup_cons.mp (by simpa using hnd)).1
    have hnd' : (rest.map ProjectResult.Path).Nodup :=
      (List.nodup_cons.mp (by simpa using hnd)).2
    have hany : (m.any (fun p => p.1 == r.Path)) = false := by
      rw [List.any_eq_false]
      intro q hq
      simp only [beq_iff_eq]
      exact hfresh r (by simp) q hq
    have hup : mapUpsert m r.Path (renderOne common r)
        = m ++ [(r.Path, renderOne common r)] := by
      simp [mapUpsert, hany]
    have hfresh' : ∀ r' ∈ rest, ∀ q ∈ m ++ [(r.Path, renderOne common r)], q.1 ≠ r'.Path := by
      intro r' hr' q hq
      rcases List.mem_append.mp hq with hqm | hqx
      · exact hfresh r' (by simp [hr']) q hqm
      · have hqe : q = (r.Path, renderOne common r) := by simpa using hqx
        rw [hqe]
        show r.Path ≠ r'.Path
        intro he
        exact hnotmem (by rw [he]; exact List.mem_map_of_mem _ hr')
    rw [List.foldl_cons, hup, ih (m ++ [(r.Path, renderOne common r)]) hnd' hfresh']
    simp

theorem sorted_nodup_perm_eq : ∀ {l₁ l₂ : List (String × String)},
    l₁.Perm l₂ → List.Sorted keyLe l₁ → List.Sorted keyLe l₂ →
    (l₁.map Prod.fst).Nodup → l₁ = l₂ := by
  intro l₁
  induction l₁ with
  | nil =>
    intro l₂ hp _ _ _
    exact (hp.symm.eq_nil).symm
  | cons p l₁' ih =>
    intro l₂ hp hs₁ hs₂ hnd
    cases l₂ with
    | nil => exact absurd hp.eq_nil (by simp)
    | cons q l₂' =>
      have hnd2 : p.1 ∉ l₁'.map Prod.fst ∧ (l₁'.map Prod.fst).Nodup := by
        rw [List.map_cons] at hnd
        exact List.nodup_cons.mp hnd
      have hpq : p = q := by
        rcases List.mem_cons.mp (hp.mem_iff.mp (List.mem_cons_self p l₁')) with h | hpin
        · exact h
        · rcases List.mem_cons.mp (hp.symm.mem_iff.mp (List.mem_cons_self q l₂')) with h | hqin
          · exact h.symm
          · have h1 : keyLe p q := (List.sorted_cons.mp hs₁).1 q hqin
            have h2 : keyLe q p := (List.sorted_cons.mp hs₂).1 p hpin
            have hkey : p.1 = q.1 := String.toList_inj.mp (lexLe_antisymm h1 h2)
            refine absurd ?_ hnd2.1
            rw [hkey]
            exact List.mem_map_of_mem _ hqin
      subst hpq
      rw [ih hp.cons_inv (List.sorted_cons.mp hs₁).2 (List.sorted_cons.mp hs₂).2 hnd2.2]

/-- C10: for every results-branch invocation whose project paths are
pairwise distinct and at least two in number, the multi-project output
lists the path→result entries — in the leading bullet list and in the
`## path/` sections, the same sorted sequence in both loops — in
ascending lexicographic (byte) order of path, independently of the order
of `ProjectResults` in the input; `Render` is a deterministic (Lean)
function of its inputs. -/
theorem C10_deterministic_ordering (cmd : CommandName) (hcmd : cmd ≠ .Help)
    (log : String) (verbose : Bool) (prs : List ProjectResult)
    (hnodup : (prs.map ProjectResult.Path).Nodup) (hlen : 2 ≤ prs.length) :
    Render ⟨none, "", prs⟩ cmd log verbose
      = "Ran " ++ goTitle cmd.str ++ " in " ++ Nat.repr prs.length ++ " directories:\n"
        ++ concatStrings
            ((sortPairs (buildResults ⟨goTitle cmd.str, verbose, log⟩ prs)).map
              (fun p => " * `" ++ p.1 ++ "`\n"))
        ++ "\n"
        ++ concatStrings
            ((sortPairs (buildResults ⟨goTitle cmd.str, verbose, log⟩ prs)).map
              (fun p => "## " ++ p.1 ++ "/\n" ++ p.2 ++ "\n---\n"))
        ++ logFragment verbose log
    ∧ List.Pairwise (fun a b : String × String => lexLe a.1.data b.1.data = true)
        (sortPairs (buildResults ⟨goTitle cmd.str, verbose, log⟩ prs))
    ∧ ((sortPairs (buildResults ⟨goTitle cmd.str, verbose, log⟩ prs)).map Prod.fst).Nodup
    ∧ ((sortPairs (buildResults ⟨goTitle cmd.str, verbose, log⟩ prs)).map Prod.fst).Perm
        (prs.map ProjectResult.Path)
    ∧ ∀ prs' : List ProjectResult, prs'.Perm prs →
        Render ⟨none, "", prs'⟩ cmd log verbose = Render ⟨none, "", prs⟩ cmd log verbose := by
  have hm : buildResults ⟨goTitle cmd.str, verbose, log⟩ prs
      = prs.map (fun r => (r.Path, renderOne ⟨goTitle cmd.str, verbose, log⟩ r)) :=
    buildResults_eq_map hnodup
  have hmlen : (buildResults ⟨goTitle cmd.str, verbose, log⟩ prs).length = prs.length := by
    rw [hm, List.length_map]
  have hne1 : (buildResults ⟨goTitle cmd.str, verbose, log⟩ prs).length ≠ 1 := by
    rw [hmlen]
    omega
  have hfst : (buildResults ⟨goTitle cmd.str, verbose, log⟩ prs).map Prod.fst
      = prs.map ProjectResult.Path := by
    rw [hm, List.map_map]
    rfl
  have hperm : (sortPairs (buildResults ⟨goTitle cmd.str, verbose, log⟩ prs)).Perm
      (buildResults ⟨goTitle cmd.str, verbose, log⟩ prs) :=
    List.perm_insertionSort keyLe _
  have hfstperm : ((sortPairs (buildResults ⟨goTitle cmd.str, verbose, log⟩ prs)).map
      Prod.fst).Perm (prs.map ProjectResult.Path) := by
    rw [← hfst]
    exact hperm.map _
  have hren : Render ⟨none, "", prs⟩ cmd log verbose
      = executeMultiProjectTmpl
          ⟨buildResults ⟨goTitle cmd.str, verbose, log⟩ prs,
            ⟨goTitle cmd.str, verbose, log⟩⟩ := by
    simp [Render, if_neg hcmd, renderProjectResults, renderTemplate, hne1]
  refine ⟨?_, ?_, ?_, hfstperm, ?_⟩
  · rw [hren]
    simp [executeMultiProjectTmpl, hmlen]
  · exact List.sorted_insertionSort keyLe _
  · exact hfstperm.nodup_iff.mpr hnodup
  · intro prs' hp'
    have hnodup' : (prs'.map ProjectResult.Path).Nodup :=
      ((hp'.map ProjectResult.Path).nodup_iff).mpr hnodup
    have hm' : buildResults ⟨goTitle cmd.str, verbose, log⟩ prs'
        = prs'.map (fun r => (r.Path, renderOne ⟨goTitle cmd.str, verbose, log⟩ r)) :=
      buildResults_eq_map hnodup'
    have hmlen' : (buildResults ⟨goTitle cmd.str, verbose, log⟩ prs').length
        = (buildResults ⟨goTitle cmd.str, verbose, log⟩ prs).length := by
      rw [hm', hm, List.length_map, List.length_map, hp'.length_eq]
    have hne1' : (buildResults ⟨goTitle cmd.str, verbose, log⟩ prs').length ≠ 1 := by
      rw [hmlen']
      exact hne1
    have hfst' : (buildResults ⟨goTitle cmd.str, verbose, log⟩ prs').map Prod.fst
        = prs'.map ProjectResult.Path := by
      rw [hm', List.map_map]
      rfl
    have hsorteq : sortPairs (buildResults ⟨goTitle cmd.str, verbose, log⟩ prs')
        = sortPairs (buildResults ⟨goTitle cmd.str, verbose, log⟩ prs) := by
      refine sorted_nodup_perm_eq ?_ (List.sorted_insertionSort keyLe _)
        (List.sorted_insertionSort keyLe _) ?_
      · refine (List.perm_insertionSort keyLe _).trans
          (List.Perm.trans ?_ (List.perm_insertionSort keyLe _).symm)
        rw [hm', hm]
        exact hp'.map _
      · refine ((List.perm_insertionSort keyLe _).map Prod.fst).nodup_iff.mpr ?_
        rw [hfst']
        exact hnodup'
    have hren' : Render ⟨none, "", prs'⟩ cmd log verbose
        = executeMultiProjectTmpl
            ⟨buildResults ⟨goTitle cmd.str, verbose, log⟩ prs',
              ⟨goTitle cmd.str, verbose, log⟩⟩ := by
      simp [Render, if_neg hcmd, renderProjectResults, renderTemplate, hne1']
    rw [hren', hren]
    simp [executeMultiProjectTmpl, hsorteq, hmlen']

theorem C10_witness :
    Render ⟨none, "", [⟨"a", none, "", none, "done"⟩, ⟨"b", none, "locked", none, ""⟩]⟩
        .Apply "" false
      = Render ⟨none, "", [⟨"b", none, "locked", none, ""⟩, ⟨"a", none, "", none, "done"⟩]⟩
        .Apply "" false :=
  (C10_deterministic_ordering .Apply (by decide) "" false
      [⟨"b", none, "locked", none, ""⟩, ⟨"a", none, "", none, "done"⟩]
      (by decide) (by decide)).2.2.2.2
    [⟨"a", none, "", none, "done"⟩, ⟨"b", none, "locked", none, ""⟩]
    (List.Perm.swap _ _ _)

theorem countOcc_cons_of_head_ne {x c : Char} (h : c ≠ x) (p s : List Char) :
    countOcc (x :: p) (c :: s) = countOcc (x :: p) s := by
  simp [countOcc, not_prefix_of_head_ne h]

theorem countOcc_append_free {x : Char} (p : List Char) (a b : List Char) :
    (∀ c ∈ a, c ≠ x) → countOcc (x :: p) (a ++ b) = countOcc (x :: p) b := by
  induction a with
  | nil => exact fun _ => rfl
  | cons c cs ih =>
    intro ha
    rw [List.cons_append, countOcc_cons_of_head_ne (ha c (by simp)) p (cs ++ b)]
    exact ih fun d hd => ha d (by simp [hd])

theorem countOcc_eq_zero_of_free {x : Char} (p : List Char) (s : List Char)
    (hs : ∀ c ∈ s, c ≠ x) : countOcc (x :: p) s = 0 := by
  have h := countOcc_append_free p s [] hs
  simpa using h

theorem countOcc_self_append (x : Char) (t R : List Char) :
    countOcc (x :: t) ((x :: t) ++ R) = 1 + countOcc (x :: t) (t ++ R) := by
  have hc : List.isPrefixOf (x :: t) (x :: (t ++ R)) = true :=
    List.isPrefixOf_iff_prefix.mpr (List.prefix_append (x :: t) R)
  show countOcc (x :: t) (x :: (t ++ R)) = 1 + countOcc (x :: t) (t ++ R)
  simp only [countOcc]
  simp [hc]

theorem countOcc_append_concrete (p : List Char) : ∀ (L X : List Char),
    (∀ i, i < L.length →
      (List.isPrefixOf p (L.drop i) = false ∧ List.isPrefixOf (L.drop i) p = false)) →
    countOcc p (L ++ X) = countOcc p X := by
  intro L
  induction L with
  | nil => exact fun X _ => rfl
  | cons c cs ih =>
    intro X hL
    rw [List.cons_append]
    obtain ⟨h01, h02⟩ := hL 0 (by simp)
    simp only [List.drop_zero] at h01 h02
    cases hpre : List.isPrefixOf p (c :: (cs ++ X)) with
    | true =>
      exfalso
      have hp : p <+: (c :: cs) ++ X := List.isPrefixOf_iff_prefix.mp hpre
      rcases List.prefix_or_prefix_of_prefix hp (List.prefix_append (c :: cs) X) with h | h
      · exact Bool.noConfusion (( List.isPrefixOf_iff_prefix.mpr h).symm.trans h01)
      · exact Bool.noConfusion (( List.isPrefixOf_iff_prefix.mpr h).symm.trans h02)
    | false =>
      have hrest : countOcc p (cs ++ X) = countOcc p X :=
        ih X fun i hi => hL (i + 1) (by simpa using Nat.succ_lt_succ hi)
      simp [countOcc, hpre, hrest]

/-- Counting the log-fragment marker: for any left part `A` and any log both free of the
less-than character, `A ++ logFragment true log` contains exactly one
occurrence of `<details><summary>Log</summary>`. -/
theorem countOcc_pat_fragment {A : List Char} (hA : ∀ c ∈ A, c ≠ '<')
    {log : String} (hlog : ∀ c ∈ log.data, c ≠ '<') :
    countOcc (("<details><summary>Log</summary>").data)
      (A ++ (logFragment true log).data) = 1 := by
  have hpat : ("<details><summary>Log</summary>").data
      = '<' :: ("details><summary>Log</summary>").data := by decide
  have hfrag : (logFragment true log).data
      = '\n' :: (("<details><summary>Log</summary>").data
          ++ (("\n  <p>\n\n```\n").data ++ (log.data ++ ("```\n</p></details>\n").data))) := by
    show ((("\n<details><summary>Log</summary>\n  <p>\n\n```\n" : String) ++ log)
        ++ "```\n</p></details>\n").data = _
    rw [String.data_append, String.data_append]
    have h1 : ("\n<details><summary>Log</summary>\n  <p>\n\n```\n").data
        = '\n' :: (("<details><summary>Log</summary>").data ++ ("\n  <p>\n\n```\n").data) := by
      decide
    rw [h1]
    simp [List.append_assoc]
  rw [hfrag, hpat]
  rw [countOcc_append_free _ A _ hA]
  rw [countOcc_cons_of_head_ne (by decide) _ _]
  rw [countOcc_self_append]
  rw [← List.append_assoc]
  have hregroup : ("details><summary>Log</summary>").data ++ ("\n  <p>\n\n```\n").data
      = ("details><summary>Log</summary>\n  <p>\n\n```\n").data := by decide
  rw [hregroup]
  rw [countOcc_append_concrete _ _ _ (by decide)]
  rw [countOcc_append_free _ _ _ hlog]
  rw [show countOcc ('<' :: ("details><summary>Log</summary>").data)
      (("```\n</p></details>\n").data) = 0 by decide]

/-- C6 counterexample: with `verbose = false` but an error message that
itself contains `<details>`, the output contains the substring
`<details>`, contradicting the unconditional never-contains part of the claim. -/
theorem C6_counterexample :
    countOcc ("<details>").data
      (Render ⟨some "<details>", "", []⟩ .Plan "" false).data ≠ 0 := by
  decide

/-- Computable check that a string contains no less-than character. -/
def ltFreeB (s : String) : Bool := s.data.all (fun c => c != '<')

/-- Check `ltFreeB` lifted to an optional error message. -/
def optLtFreeB : Option String → Bool
  | none => true
  | some e => ltFreeB e

/-- Check `ltFreeB` lifted to an optional plan-success payload. -/
def psLtFreeB : Option PlanSuccess → Bool
  | none => true
  | some ps => ltFreeB ps.TerraformOutput && ltFreeB ps.LockURL

/-- Computable check that all string fields of a `ProjectResult` are free of the less-than character. -/
def projLtFreeB (r : ProjectResult) : Bool :=
  ltFreeB r.Path && optLtFreeB r.Error && ltFreeB r.Failure
    && psLtFreeB r.PlanSuccess && ltFreeB r.ApplySuccess

/-- Computable check that all string fields of a `CommandResponse` are free of the less-than character. -/
def respLtFreeB (res : CommandResponse) : Bool :=
  optLtFreeB res.Error && ltFreeB res.Failure && res.ProjectResults.all projLtFreeB

theorem ltFreeB_chars {s : String} (h : ltFreeB s = true) : ∀ c ∈ s.data, c ≠ '<' := by
  intro c hc
  have h2 := List.all_eq_true.mp h c hc
  simpa using h2

theorem strFree_append {s t : String} (hs : ∀ c ∈ s.data, c ≠ '<')
    (ht : ∀ c ∈ t.data, c ≠ '<') : ∀ c ∈ (s ++ t).data, c ≠ '<' := by
  rw [String.data_append]
  exact fun c hc => (List.mem_append.mp hc).elim (hs c) (ht c)

theorem renderOne_free {common : CommonData} {r : ProjectResult}
    (hC : ∀ c ∈ common.Command.data, c ≠ '<') (hr : projLtFreeB r = true) :
    ∀ c ∈ (renderOne common r).data, c ≠ '<' := by
  obtain ⟨path, err?, failure, ps?, applyOut⟩ := r
  simp only [projLtFreeB, Bool.and_eq_true] at hr
  obtain ⟨⟨⟨⟨_, herr⟩, hfail⟩, hps⟩, happ⟩ := hr
  cases err? with
  | some e =>
    show ∀ c ∈ (executeErrTmpl common.Command e).data, c ≠ '<'
    exact strFree_append (strFree_append (strFree_append (strFree_append (by decide) hC)
      (by decide)) (ltFreeB_chars herr)) (by decide)
  | none =>
    by_cases hf : failure ≠ ""
    · have hshow : renderOne common ⟨path, none, failure, ps?, applyOut⟩
          = executeFailureTmpl common.Command failure := by
        simp [renderOne, renderTemplate, hf]
      rw [hshow]
      exact strFree_append (strFree_append (strFree_append (strFree_append (by decide) hC)
        (by decide)) (ltFreeB_chars hfail)) (by decide)
    · cases ps? with
      | some ps =>
        have hshow : renderOne common ⟨path, none, failure, some ps, applyOut⟩
            = executePlanSuccessTmpl ps := by
          simp [renderOne, renderTemplate, hf]
        rw [hshow]
        simp only [psLtFreeB, Bool.and_eq_true] at hps
        exact strFree_append (strFree_append (strFree_append (strFree_append (by decide)
          (ltFreeB_chars hps.1)) (by decide)) (ltFreeB_chars hps.2)) (by decide)
      | none =>
        by_cases ha : applyOut ≠ ""
        · have hshow : renderOne common ⟨path, none, failure, none, applyOut⟩
              = executeApplySuccessTmpl applyOut := by
            simp [renderOne, renderTemplate, hf, ha]
          rw [hshow]
          exact strFree_append (strFree_append (by decide) (ltFreeB_chars happ)) (by decide)
        · have hshow : renderOne common ⟨path, none, failure, none, applyOut⟩
              = "Found no template. This is a bug!" := by
            simp [renderOne, hf, ha]
          rw [hshow]
          decide

theorem concatStrings_free {f : (String × String) → String} : ∀ {l : List (String × String)},
    (∀ q ∈ l, ∀ c ∈ (f q).data, c ≠ '<') →
    ∀ c ∈ (concatStrings (l.map f)).data, c ≠ '<' := by
  intro l
  induction l with
  | nil =>
    intro _ c hc
    exact absurd hc (List.not_mem_nil c)
  | cons q rest ih =>
    intro h
    show ∀ c ∈ (f q ++ concatStrings (rest.map f)).data, c ≠ '<'
    exact strFree_append (h q (by simp)) (ih fun q' hq' => h q' (by simp [hq']))

theorem buildResults_free {common : CommonData} {prs : List ProjectResult}
    (hC : ∀ c ∈ common.Command.data, c ≠ '<') (hprs : prs.all projLtFreeB = true) :
    ∀ q ∈ buildResults common prs,
      (∀ c ∈ q.1.data, c ≠ '<') ∧ (∀ c ∈ q.2.data, c ≠ '<') := by
  intro q hq
  obtain ⟨r, hr, hqe⟩ := buildResults_mem q hq
  have hrfree : projLtFreeB r = true := List.all_eq_true.mp hprs r hr
  rw [hqe]
  constructor
  · have hpath : ltFreeB r.Path = true := by
      simp only [projLtFreeB, Bool.and_eq_true] at hrfree
      exact hrfree.1.1.1.1
    exact ltFreeB_chars hpath
  · exact renderOne_free hC hrfree

theorem toDigitsCore_free : ∀ (f n : Nat) (ds : List Char),
    (∀ c ∈ ds, c ≠ '<') → ∀ c ∈ Nat.toDigitsCore 10 f n ds, c ≠ '<' := by
  intro f
  induction f with
  | zero => exact fun n ds h => h
  | succ f ih =>
    intro n ds h
    have hall : ∀ m, m < 10 → Nat.digitChar m ≠ '<' := by decide
    have hd : Nat.digitChar (n % 10) ≠ '<' := hall _ (Nat.mod_lt _ (by norm_num))
    have hcons : ∀ c ∈ (Nat.digitChar (n % 10) :: ds), c ≠ '<' := by
      intro c hc
      rcases List.mem_cons.mp hc with he | hm
      · rw [he]; exact hd
      · exact h c hm
    show ∀ c ∈ (if n / 10 = 0 then Nat.digitChar (n % 10) :: ds
        else Nat.toDigitsCore 10 f (n / 10) (Nat.digitChar (n % 10) :: ds)), c ≠ '<'
    split
    · exact hcons
    · exact ih (n / 10) _ hcons

theorem natRepr_free (n : Nat) : ∀ c ∈ (Nat.repr n).data, c ≠ '<' := by
  show ∀ c ∈ Nat.toDigitsCore 10 (n + 1) n [], c ≠ '<'
  exact toDigitsCore_free (n + 1) n [] (by simp)

/-- Every non-Help rendering is a body free of the less-than character
followed by the log fragment, provided the response fields and the
title-cased command are free of it. -/
theorem render_split (res : CommandResponse) (cmd : CommandName) (log : String)
    (verbose : Bool) (hcmd : cmd ≠ .Help)
    (hfree : respLtFreeB res = true) (hcmdfree : ltFreeB (goTitle cmd.str) = true) :
    ∃ S : String, Render res cmd log verbose = S ++ logFragment verbose log
      ∧ ∀ c ∈ S.data, c ≠ '<' := by
  have hC : ∀ c ∈ (goTitle cmd.str).data, c ≠ '<' := ltFreeB_chars hcmdfree
  obtain ⟨err?, failure, prs⟩ := res
  simp only [respLtFreeB, Bool.and_eq_true] at hfree
  obtain ⟨⟨herr, hfail⟩, hprs⟩ := hfree
  cases err? with
  | some e =>
    refine ⟨executeErrTmpl (goTitle cmd.str) e, ?_, ?_⟩
    · simp [Render, if_neg hcmd, renderTemplate, executeErrWithLogTmpl]
    · exact strFree_append (strFree_append (strFree_append (strFree_append (by decide) hC)
        (by decide)) (ltFreeB_chars herr)) (by decide)
  | none =>
    by_cases hf : failure ≠ ""
    · refine ⟨executeFailureTmpl (goTitle cmd.str) failure, ?_, ?_⟩
      · simp [Render, if_neg hcmd, renderTemplate, executeFailureWithLogTmpl, hf]
      · exact strFree_append (strFree_append (strFree_append (strFree_append (by decide) hC)
          (by decide)) (ltFreeB_chars hfail)) (by decide)
    · have hentry : ∀ q ∈ sortPairs (buildResults ⟨goTitle cmd.str, verbose, log⟩ prs),
          (∀ c ∈ q.1.data, c ≠ '<') ∧ (∀ c ∈ q.2.data, c ≠ '<') := fun q hq =>
        buildResults_free hC hprs q ((List.perm_insertionSort keyLe _).mem_iff.mp hq)
      by_cases hlen : (buildResults ⟨goTitle cmd.str, verbose, log⟩ prs).length = 1
      · refine ⟨concatStrings
            ((sortPairs (buildResults ⟨goTitle cmd.str, verbose, log⟩ prs)).map Prod.snd)
            ++ "\n", ?_, ?_⟩
        · simp [Render, if_neg hcmd, renderProjectResults, renderTemplate, hf, hlen,
            executeSingleProjectTmpl]
        · exact strFree_append (concatStrings_free fun q hq => (hentry q hq).2) (by decide)
      · refine ⟨"Ran " ++ goTitle cmd.str ++ " in "
            ++ Nat.repr (buildResults ⟨goTitle cmd.str, verbose, log⟩ prs).length
            ++ " directories:\n"
            ++ concatStrings
                ((sortPairs (buildResults ⟨goTitle cmd.str, verbose, log⟩ prs)).map
                  (fun p => " * `" ++ p.1 ++ "`\n"))
            ++ "\n"
            ++ concatStrings
                ((sortPairs (buildResults ⟨goTitle cmd.str, verbose, log⟩ prs)).map
                  (fun p => "## " ++ p.1 ++ "/\n" ++ p.2 ++ "\n---\n")), ?_, ?_⟩
        · simp [Render, if_neg hcmd, renderProjectResults, renderTemplate, hf, hlen,
            executeMultiProjectTmpl]
        · refine strFree_append (strFree_append (strFree_append (strFree_append (strFree_append
            (strFree_append (strFree_append (by decide) hC) (by decide)) (natRepr_free _))
            (by decide)) (concatStrings_free ?_)) (by decide)) (concatStrings_free ?_)
          · intro q hq
            exact strFree_append (strFree_append (by decide) (hentry q hq).1) (by decide)
          · intro q hq
            exact strFree_append (strFree_append (strFree_append (strFree_append (by decide)
              (hentry q hq).1) (by decide)) (hentry q hq).2) (by decide)

/-- C6 (amended): for every non-Help invocation whose inputs (title-cased
command, log, and all response string fields) contain no less-than
character:
with `verbose = false` the output never contains the substring
`<details>`; with `verbose = true` the output contains exactly one
occurrence of `<details><summary>Log</summary>` and the supplied log
appears verbatim inside the fenced block that follows it. -/
theorem C6_log_inclusion_amended (res : CommandResponse) (cmd : CommandName) (log : String)
    (verbose : Bool) (hcmd : cmd ≠ .Help) (hfree : respLtFreeB res = true)
    (hcmdfree : ltFreeB (goTitle cmd.str) = true) (hlogfree : ltFreeB log = true) :
    (verbose = false →
      countOcc ("<details>").data (Render res cmd log verbose).data = 0)
    ∧ (verbose = true →
      countOcc ("<details><summary>Log</summary>").data (Render res cmd log verbose).data = 1
      ∧ ("<details><summary>Log</summary>\n  <p>\n\n```\n" ++ log
          ++ "```\n</p></details>").data <:+: (Render res cmd log verbose).data) := by
  obtain ⟨S, hS, hSfree⟩ := render_split res cmd log verbose hcmd hfree hcmdfree
  have hlog : ∀ c ∈ log.data, c ≠ '<' := ltFreeB_chars hlogfree
  constructor
  · intro hv
    subst hv
    rw [hS]
    have hnl : ∀ c ∈ (("\n" : String)).data, c ≠ '<' := by decide
    have hout : ∀ c ∈ (S ++ logFragment false log).data, c ≠ '<' :=
      strFree_append hSfree hnl
    have hpat9 : ("<details>").data = '<' :: ("details>").data := by decide
    rw [hpat9]
    exact countOcc_eq_zero_of_free _ _ hout
  · intro hv
    subst hv
    rw [hS]
    constructor
    · rw [String.data_append]
      exact countOcc_pat_fragment hSfree hlog
    · have hfrag2 : (logFragment true log).data
          = ['\n'] ++ ((("<details><summary>Log</summary>\n  <p>\n\n```\n").data
              ++ (log.data ++ ("```\n</p></details>").data)) ++ ['\n']) := by
        show ((("\n<details><summary>Log</summary>\n  <p>\n\n```\n" : String) ++ log)
            ++ "```\n</p></details>\n").data = _
        rw [String.data_append, String.data_append]
        have h1 : ("\n<details><summary>Log</summary>\n  <p>\n\n```\n").data
            = ['\n'] ++ ("<details><summary>Log</summary>\n  <p>\n\n```\n").data := by decide
        have h2 : ("```\n</p></details>\n").data
            = ("```\n</p></details>").data ++ ['\n'] := by decide
        rw [h1, h2]
        simp [List.append_assoc]
      refine ⟨S.data ++ ['\n'], ['\n'], ?_⟩
      simp [String.data_append, hfrag2, List.append_assoc]

theorem C6_witness :
    countOcc ("<details><summary>Log</summary>").data
        (Render ⟨some "boom", "", []⟩ .Plan "xyz" true).data = 1
    ∧ ("<details><summary>Log</summary>\n  <p>\n\n```\n" ++ "xyz"
        ++ "```\n</p></details>").data
        <:+: (Render ⟨some "boom", "", []⟩ .Plan "xyz" true).data
    ∧ countOcc ("<details>").data (Render ⟨some "boom", "", []⟩ .Plan "xyz" false).data = 0 :=
  ⟨((C6_log_inclusion_amended ⟨some "boom", "", []⟩ .Plan "xyz" true (by decide) (by decide)
      (by decide) (by decide)).2 rfl).1,
    ((C6_log_inclusion_amended ⟨some "boom", "", []⟩ .Plan "xyz" true (by decide) (by decide)
      (by decide) (by decide)).2 rfl).2,
    (C6_log_inclusion_amended ⟨some "boom", "", []⟩ .Plan "xyz" false (by decide) (by decide)
      (by decide) (by decide)).1 rfl⟩

end Atlantis
